import Mathlib

/-!
Verification of the keyboard input-forwarding subsystem of `bevy_ratatui`
(`src/input_forwarding/keyboard.rs`), shallowly embedded in Lean.

The embedding models:
* `Capability` / `EmulationPolicy` / `Detected` (capability detection and
  emulation-policy resolution),
* `KeyModifiers` (the crossterm modifier bitflags, as a record of the six
  defined flags; bitflag iteration yields set flags in declaration order),
* `ReleaseKey` / `ReleaseKeyState` (the release scheduler),
* the bevy-side key event type and the crossterm→bevy translation functions
  (`key_event_to_bevy`, `to_bevy_keycode`, `to_bevy_key`,
  `modifier_to_bevy`, `crossterm_modifier_to_bevy_key`) restricted to the
  crossterm key codes exercised here (`Char`, `Esc`, `Null`, `Modifier`),
* the per-tick reconciler `send_key_events_with_emulation`, with the bevy
  `Local` state made explicit and the two `HashSet` buffers of `LastPress`
  modelled as duplicate-free lists in insertion order,
* the `PreUpdate` pipeline pieces `reset_emulation_check`,
  `detect_capabilities` and `check_for_emulation`.

`Option` results model partial functions; a `none` produced where the Rust
source would `panic!` is noted at the definition.
-/

namespace BevyRatatui

/-- Capability bit set from `bitflags!`: `KEY_RELEASE = 0b01`,
`MODIFIER = 0b10`, modelled as one Bool per defined flag. -/
structure Capability where
  key_release : Bool
  modifier : Bool
  deriving DecidableEq, Repr, Fintype

namespace Capability

def NONE : Capability := ⟨false, false⟩

def KEY_RELEASE : Capability := ⟨true, false⟩

def MODIFIER : Capability := ⟨false, true⟩

def ALL : Capability := ⟨true, true⟩

/-- bitflags `|` (bitwise or). -/
def union (a b : Capability) : Capability :=
  ⟨a.key_release || b.key_release, a.modifier || b.modifier⟩

/-- bitflags `!`, which complements within the defined bits only. -/
def compl (a : Capability) : Capability :=
  ⟨!a.key_release, !a.modifier⟩

/-- bitflags `&` (bitwise and). -/
def inter (a b : Capability) : Capability :=
  ⟨a.key_release && b.key_release, a.modifier && b.modifier⟩

/-- bitflags difference `a - b` (bits of `a` not in `b`). -/
def diff (a b : Capability) : Capability :=
  ⟨a.key_release && !b.key_release, a.modifier && !b.modifier⟩

/-- bitflags `contains`: every bit of `b` is set in `a`. -/
def hasAll (a b : Capability) : Bool :=
  (!b.key_release || a.key_release) && (!b.modifier || a.modifier)

/-- bitflags `is_empty`. -/
def is_empty (a : Capability) : Bool :=
  !a.key_release && !a.modifier

end Capability

/-- `EmulationPolicy` resource: `Automatic`, or `Manual(capability set)`. -/
inductive EmulationPolicy where
  | Automatic : EmulationPolicy
  | Manual : Capability → EmulationPolicy
  deriving DecidableEq, Repr

/-- `EmulationPolicy::emulate_capabilities`: the capabilities to emulate
given the detected set. `Automatic` returns the bitflags complement of
`detected`; `Manual(c)` returns `c` unchanged. -/
def EmulationPolicy.emulate_capabilities :
    EmulationPolicy → Capability → Capability
  | .Automatic, detected => detected.compl
  | .Manual capability, _ => capability

/-- The six crossterm `KeyModifiers` bitflags (`SHIFT`, `CONTROL`, `ALT`,
`SUPER`, `HYPER`, `META` in declaration order), one Bool per flag. -/
structure KeyModifiers where
  shift : Bool
  control : Bool
  alt : Bool
  super : Bool
  hyper : Bool
  meta : Bool
  deriving DecidableEq, Repr, Fintype

namespace KeyModifiers

def empty : KeyModifiers := ⟨false, false, false, false, false, false⟩

def SHIFT : KeyModifiers := ⟨true, false, false, false, false, false⟩

def CONTROL : KeyModifiers := ⟨false, true, false, false, false, false⟩

def ALT : KeyModifiers := ⟨false, false, true, false, false, false⟩

def SUPER : KeyModifiers := ⟨false, false, false, true, false, false⟩

def HYPER : KeyModifiers := ⟨false, false, false, false, true, false⟩

def META : KeyModifiers := ⟨false, false, false, false, false, true⟩

/-- bitflags `|`. -/
def union (a b : KeyModifiers) : KeyModifiers :=
  ⟨a.shift || b.shift, a.control || b.control, a.alt || b.alt,
   a.super || b.super, a.hyper || b.hyper, a.meta || b.meta⟩

/-- `KeyModifiers::symmetric_difference` (bitwise xor). -/
def symmetric_difference (a b : KeyModifiers) : KeyModifiers :=
  ⟨xor a.shift b.shift, xor a.control b.control, xor a.alt b.alt,
   xor a.super b.super, xor a.hyper b.hyper, xor a.meta b.meta⟩

/-- bitflags `contains`: every bit of `b` is set in `a`. -/
def hasAll (a b : KeyModifiers) : Bool :=
  (!b.shift || a.shift) && (!b.control || a.control) && (!b.alt || a.alt) &&
  (!b.super || a.super) && (!b.hyper || a.hyper) && (!b.meta || a.meta)

/-- bitflags iteration: the contained defined flags, one singleton mask per
set bit, in flag declaration order. -/
def flags (m : KeyModifiers) : List KeyModifiers :=
  (if m.shift then [SHIFT] else []) ++
  (if m.control then [CONTROL] else []) ++
  (if m.alt then [ALT] else []) ++
  (if m.super then [SUPER] else []) ++
  (if m.hyper then [HYPER] else []) ++
  (if m.meta then [META] else [])

/-- Number of set flags. -/
def popCount (m : KeyModifiers) : Nat :=
  (if m.shift then 1 else 0) + (if m.control then 1 else 0) +
  (if m.alt then 1 else 0) + (if m.super then 1 else 0) +
  (if m.hyper then 1 else 0) + (if m.meta then 1 else 0)

end KeyModifiers

/-- bevy `ButtonState`. -/
inductive ButtonState where
  | Pressed : ButtonState
  | Released : ButtonState
  deriving DecidableEq, Repr

/-- The bevy physical `KeyCode`s reachable from the embedded crossterm key
codes (`Char`, `Esc`, `Modifier`). -/
inductive BKeyCode where
  | Digit0 | Digit1 | Digit2 | Digit3 | Digit4
  | Digit5 | Digit6 | Digit7 | Digit8 | Digit9
  | Minus | BracketLeft | BracketRight | Comma | Equal
  | Period | Quote | Semicolon | Slash | Space
  | KeyA | KeyB | KeyC | KeyD | KeyE | KeyF | KeyG | KeyH | KeyI | KeyJ
  | KeyK | KeyL | KeyM | KeyN | KeyO | KeyP | KeyQ | KeyR | KeyS | KeyT
  | KeyU | KeyV | KeyW | KeyX | KeyY | KeyZ
  | Escape
  | ShiftLeft | ShiftRight | ControlLeft | ControlRight
  | AltLeft | AltRight | SuperLeft | SuperRight | Hyper | Meta
  deriving DecidableEq, Repr

/-- The bevy logical `Key`s reachable from the embedded crossterm key
codes. `Character s` holds the UTF-8 text of the character. -/
inductive BKey where
  | Character : String → BKey
  | Escape
  | Shift | Control | Alt | Super | Hyper | Meta
  | AltGraph
  deriving DecidableEq, Repr

/-- bevy `KeyboardInput`; `window` (an `Entity`) is modelled as `Nat`.
The `KeyInput` wrapper in the source hashes and compares exactly these four
fields, so set membership below is plain structural equality. -/
structure KeyboardInput where
  key_code : BKeyCode
  logical_key : BKey
  state : ButtonState
  window : Nat
  deriving DecidableEq, Repr

/-- crossterm `ModifierKeyCode`. -/
inductive CModifierKeyCode where
  | LeftShift | LeftControl | LeftAlt | LeftSuper | LeftHyper | LeftMeta
  | RightShift | RightControl | RightAlt | RightSuper | RightHyper | RightMeta
  | IsoLevel3Shift | IsoLevel5Shift
  deriving DecidableEq, Repr

/-- The crossterm `KeyCode` constructors exercised by this development;
the remaining constructors of the source enum behave analogously through
the same two lookup tables. -/
inductive CKeyCode where
  | Char : Char → CKeyCode
  | Esc : CKeyCode
  | Null : CKeyCode
  | Modifier : CModifierKeyCode → CKeyCode
  deriving DecidableEq, Repr

/-- crossterm `KeyEventKind`. -/
inductive CKeyEventKind where
  | Press | Repeat | Release
  deriving DecidableEq, Repr

/-- crossterm `KeyEvent` (the `state` field is unused by the source). -/
structure CKeyEvent where
  code : CKeyCode
  modifiers : KeyModifiers
  kind : CKeyEventKind
  deriving DecidableEq, Repr

/-- `to_bevy_keycode`: the physical-key lookup, returning the bevy key code
together with the modifier bits the character implies (e.g. punctuation that
needs a shifted key). `none` models an unmappable code. -/
def to_bevy_keycode : CKeyCode → Option (BKeyCode × KeyModifiers) :=
  fun key_code =>
  match key_code with
  | .Char c =>
    match c with
    | '!' => some (BKeyCode.Digit1, KeyModifiers.SHIFT)
    | '@' => some (BKeyCode.Digit2, KeyModifiers.SHIFT)
    | '#' => some (BKeyCode.Digit3, KeyModifiers.SHIFT)
    | '$' => some (BKeyCode.Digit4, KeyModifiers.SHIFT)
    | '%' => some (BKeyCode.Digit5, KeyModifiers.SHIFT)
    | '^' => some (BKeyCode.Digit6, KeyModifiers.SHIFT)
    | '&' => some (BKeyCode.Digit7, KeyModifiers.SHIFT)
    | '*' => some (BKeyCode.Digit8, KeyModifiers.SHIFT)
    | '(' => some (BKeyCode.Digit9, KeyModifiers.SHIFT)
    | ')' => some (BKeyCode.Digit0, KeyModifiers.SHIFT)
    | '-' => some (BKeyCode.Minus, KeyModifiers.SHIFT)
    | '[' => some (BKeyCode.BracketLeft, KeyModifiers.empty)
    | ']' => some (BKeyCode.BracketRight, KeyModifiers.empty)
    | '{' => some (BKeyCode.BracketLeft, KeyModifiers.SHIFT)
    | '}' => some (BKeyCode.BracketRight, KeyModifiers.SHIFT)
    | ',' => some (BKeyCode.Comma, KeyModifiers.empty)
    | '=' => some (BKeyCode.Equal, KeyModifiers.empty)
    | '<' => some (BKeyCode.Comma, KeyModifiers.SHIFT)
    | '+' => some (BKeyCode.Equal, KeyModifiers.SHIFT)
    | '.' => some (BKeyCode.Period, KeyModifiers.empty)
    | '>' => some (BKeyCode.Period, KeyModifiers.SHIFT)
    | '\'' => some (BKeyCode.Quote, KeyModifiers.empty)
    | '"' => some (BKeyCode.Quote, KeyModifiers.SHIFT)
    | ';' => some (BKeyCode.Semicolon, KeyModifiers.empty)
    | ':' => some (BKeyCode.Semicolon, KeyModifiers.SHIFT)
    | '/' => some (BKeyCode.Slash, KeyModifiers.empty)
    | '?' => some (BKeyCode.Slash, KeyModifiers.SHIFT)
    | ' ' => some (BKeyCode.Space, KeyModifiers.empty)
    | '1' => some (BKeyCode.Digit1, KeyModifiers.empty)
    | '2' => some (BKeyCode.Digit2, KeyModifiers.empty)
    | '3' => some (BKeyCode.Digit3, KeyModifiers.empty)
    | '4' => some (BKeyCode.Digit4, KeyModifiers.empty)
    | '5' => some (BKeyCode.Digit5, KeyModifiers.empty)
    | '6' => some (BKeyCode.Digit6, KeyModifiers.empty)
    | '7' => some (BKeyCode.Digit7, KeyModifiers.empty)
    | '8' => some (BKeyCode.Digit8, KeyModifiers.empty)
    | '9' => some (BKeyCode.Digit9, KeyModifiers.empty)
    | '0' => some (BKeyCode.Digit0, KeyModifiers.empty)
    | 'a' => some (BKeyCode.KeyA, KeyModifiers.empty)
    | 'b' => some (BKeyCode.KeyB, KeyModifiers.empty)
    | 'c' => some (BKeyCode.KeyC, KeyModifiers.empty)
    | 'd' => some (BKeyCode.KeyD, KeyModifiers.empty)
    | 'e' => some (BKeyCode.KeyE, KeyModifiers.empty)
    | 'f' => some (BKeyCode.KeyF, KeyModifiers.empty)
    | 'g' => some (BKeyCode.KeyG, KeyModifiers.empty)
    | 'h' => some (BKeyCode.KeyH, KeyModifiers.empty)
    | 'i' => some (BKeyCode.KeyI, KeyModifiers.empty)
    | 'j' => some (BKeyCode.KeyJ, KeyModifiers.empty)
    | 'k' => some (BKeyCode.KeyK, KeyModifiers.empty)
    | 'l' => some (BKeyCode.KeyL, KeyModifiers.empty)
    | 'm' => some (BKeyCode.KeyM, KeyModifiers.empty)
    | 'n' => some (BKeyCode.KeyN, KeyModifiers.empty)
    | 'o' => some (BKeyCode.KeyO, KeyModifiers.empty)
    | 'p' => some (BKeyCode.KeyP, KeyModifiers.empty)
    | 'q' => some (BKeyCode.KeyQ, KeyModifiers.empty)
    | 'r' => some (BKeyCode.KeyR, KeyModifiers.empty)
    | 's' => some (BKeyCode.KeyS, KeyModifiers.empty)
    | 't' => some (BKeyCode.KeyT, KeyModifiers.empty)
    | 'u' => some (BKeyCode.KeyU, KeyModifiers.empty)
    | 'v' => some (BKeyCode.KeyV, KeyModifiers.empty)
    | 'w' => some (BKeyCode.KeyW, KeyModifiers.empty)
    | 'x' => some (BKeyCode.KeyX, KeyModifiers.empty)
    | 'y' => some (BKeyCode.KeyY, KeyModifiers.empty)
    | 'z' => some (BKeyCode.KeyZ, KeyModifiers.empty)
    | 'A' => some (BKeyCode.KeyA, KeyModifiers.SHIFT)
    | 'B' => some (BKeyCode.KeyB, KeyModifiers.SHIFT)
    | 'C' => some (BKeyCode.KeyC, KeyModifiers.SHIFT)
    | 'D' => some (BKeyCode.KeyD, KeyModifiers.SHIFT)
    | 'E' => some (BKeyCode.KeyE, KeyModifiers.SHIFT)
    | 'F' => some (BKeyCode.KeyF, KeyModifiers.SHIFT)
    | 'G' => some (BKeyCode.KeyG, KeyModifiers.SHIFT)
    | 'H' => some (BKeyCode.KeyH, KeyModifiers.SHIFT)
    | 'I' => some (BKeyCode.KeyI, KeyModifiers.SHIFT)
    | 'J' => some (BKeyCode.KeyJ, KeyModifiers.SHIFT)
    | 'K' => some (BKeyCode.KeyK, KeyModifiers.SHIFT)
    | 'L' => some (BKeyCode.KeyL, KeyModifiers.SHIFT)
    | 'M' => some (BKeyCode.KeyM, KeyModifiers.SHIFT)
    | 'N' => some (BKeyCode.KeyN, KeyModifiers.SHIFT)
    | 'O' => some (BKeyCode.KeyO, KeyModifiers.SHIFT)
    | 'P' => some (BKeyCode.KeyP, KeyModifiers.SHIFT)
    | 'Q' => some (BKeyCode.KeyQ, KeyModifiers.SHIFT)
    | 'R' => some (BKeyCode.KeyR, KeyModifiers.SHIFT)
    | 'S' => some (BKeyCode.KeyS, KeyModifiers.SHIFT)
    | 'T' => some (BKeyCode.KeyT, KeyModifiers.SHIFT)
    | 'U' => some (BKeyCode.KeyU, KeyModifiers.SHIFT)
    | 'V' => some (BKeyCode.KeyV, KeyModifiers.SHIFT)
    | 'W' => some (BKeyCode.KeyW, KeyModifiers.SHIFT)
    | 'X' => some (BKeyCode.KeyX, KeyModifiers.SHIFT)
    | 'Y' => some (BKeyCode.KeyY, KeyModifiers.SHIFT)
    | 'Z' => some (BKeyCode.KeyZ, KeyModifiers.SHIFT)
    | _ => none
  | .Esc => some (BKeyCode.Escape, KeyModifiers.empty)
  | .Null => none
  | .Modifier m =>
    (match m with
     | .LeftShift => some BKeyCode.ShiftLeft
     | .LeftControl => some BKeyCode.ControlLeft
     | .LeftAlt => some BKeyCode.AltLeft
     | .LeftSuper => some BKeyCode.SuperLeft
     | .LeftHyper => some BKeyCode.Hyper
     | .LeftMeta => some BKeyCode.Meta
     | .RightShift => some BKeyCode.ShiftRight
     | .RightControl => some BKeyCode.ControlRight
     | .RightAlt => some BKeyCode.AltRight
     | .RightSuper => some BKeyCode.SuperRight
     | .RightHyper => some BKeyCode.Hyper
     | .RightMeta => some BKeyCode.Meta
     | .IsoLevel3Shift => none
     | .IsoLevel5Shift => none).map (fun kc => (kc, KeyModifiers.empty))

/-- `to_bevy_key`: the logical-key lookup. A `Char` becomes `Character`
holding its UTF-8 text (the source's `encode_utf8` into a `SmolStr`). -/
def to_bevy_key : CKeyCode → Option BKey :=
  fun key_code =>
  match key_code with
  | .Char c => some (BKey.Character (String.singleton c))
  | .Esc => some BKey.Escape
  | .Null => none
  | .Modifier m =>
    match m with
    | .LeftShift => some BKey.Shift
    | .LeftControl => some BKey.Control
    | .LeftAlt => some BKey.Alt
    | .LeftSuper => some BKey.Super
    | .LeftHyper => some BKey.Hyper
    | .LeftMeta => some BKey.Meta
    | .RightShift => some BKey.Shift
    | .RightControl => some BKey.Control
    | .RightAlt => some BKey.Alt
    | .RightSuper => some BKey.Super
    | .RightHyper => some BKey.Hyper
    | .RightMeta => some BKey.Meta
    | .IsoLevel3Shift => some BKey.AltGraph
    | .IsoLevel5Shift => none

/-- `modifier_to_bevy`: build the synthetic bevy event for one modifier
logical key. `none` models the source's `panic!("No such modifier")` branch
for a non-modifier argument. -/
def modifier_to_bevy (modifier : BKey) (state : ButtonState) (window : Nat) :
    Option KeyboardInput :=
  (match modifier with
   | .Control => some BKeyCode.ControlLeft
   | .Shift => some BKeyCode.ShiftLeft
   | .Alt => some BKeyCode.AltLeft
   | .Hyper => some BKeyCode.Hyper
   | .Meta => some BKeyCode.Meta
   | .Super => some BKeyCode.SuperLeft
   | _ => none).map
    (fun key_code =>
      { key_code := key_code, logical_key := modifier,
        state := state, window := window })

/-- `crossterm_modifier_to_bevy_key`: convert a one-flag `KeyModifiers`
value to the bevy logical key. The source takes the first flag of the
bitflags iterator (`.expect("mod")` aborts on an empty mask) and then
asserts the iterator is exhausted; both aborts are modelled as `none`. -/
def crossterm_modifier_to_bevy_key (modifier : KeyModifiers) : Option BKey :=
  match modifier.flags with
  | [] => none
  | flag :: rest =>
    (if flag = KeyModifiers.SHIFT then some BKey.Shift
     else if flag = KeyModifiers.CONTROL then some BKey.Control
     else if flag = KeyModifiers.ALT then some BKey.Alt
     else if flag = KeyModifiers.SUPER then some BKey.Super
     else if flag = KeyModifiers.HYPER then some BKey.Hyper
     else if flag = KeyModifiers.META then some BKey.Meta
     else none).bind
      (fun result => if rest.isEmpty then some result else none)

/-- `key_event_to_bevy`: translate one crossterm key event into the bevy
event (press kind ↦ `Pressed`, repeat and release kinds ↦ `Released`), the
full modifier mask (event mask or-ed with the implied bits), and the
is-repeat flag. -/
def key_event_to_bevy (key_event : CKeyEvent) (window : Nat) :
    Option (KeyboardInput × KeyModifiers × Bool) :=
  let repeated := key_event.kind = CKeyEventKind.Repeat
  let state :=
    match key_event.kind with
    | .Press => ButtonState.Pressed
    | .Repeat => ButtonState.Released
    | .Release => ButtonState.Released
  match to_bevy_keycode key_event.code, to_bevy_key key_event.code with
  | some (key_code, mods), some logical_key =>
    some ({ key_code := key_code, logical_key := logical_key,
            state := state, window := window },
          key_event.modifiers.union mods, repeated)
  | _, _ => none

/-- `ReleaseKey` resource: the four release-scheduler strategies.
Durations and time deltas are in abstract integral time units (`Nat`). -/
inductive ReleaseKey where
  | Duration : Nat → ReleaseKey
  | FrameCount : Nat → ReleaseKey
  | Immediate : ReleaseKey
  | OnNextKey : ReleaseKey
  deriving DecidableEq, Repr

/-- bevy `Timer` in `TimerMode::Once`: ticking adds the delta to the
elapsed time, clamped at the duration; finished once elapsed reaches the
duration; reset rewinds the elapsed time to zero. -/
structure BevyTimer where
  duration : Nat
  elapsed : Nat
  deriving DecidableEq, Repr

def BevyTimer.tickTimer (t : BevyTimer) (delta : Nat) : BevyTimer :=
  { t with elapsed := min (t.elapsed + delta) t.duration }

def BevyTimer.isFinished (t : BevyTimer) : Bool :=
  t.duration ≤ t.elapsed

def BevyTimer.resetTimer (t : BevyTimer) : BevyTimer :=
  { t with elapsed := 0 }

/-- The `Local` scheduler state: `None` before first use, a frame counter,
or a timer. -/
inductive ReleaseKeyState where
  | None : ReleaseKeyState
  | Count : Nat → ReleaseKeyState
  | Timer : BevyTimer → ReleaseKeyState
  deriving DecidableEq, Repr

/-- `ReleaseKey::tick`: advance the scheduler state by one update. Frame
strategies increment the counter (installing `Count(0)` on first use,
mirroring the source's else branch); the duration strategy ticks the timer
(installing a fresh, unticked timer on first use); `OnNextKey` does
nothing. The source's `saturating_add` is modelled by `Nat` addition. -/
def ReleaseKey.tick :
    ReleaseKey → ReleaseKeyState → Nat → ReleaseKeyState
  | .FrameCount _, .Count c, _ => .Count (c + 1)
  | .FrameCount _, _, _ => .Count 0
  | .Immediate, .Count c, _ => .Count (c + 1)
  | .Immediate, _, _ => .Count 0
  | .Duration _, .Timer t, delta => .Timer (t.tickTimer delta)
  | .Duration d, _, _ => .Timer ⟨d, 0⟩
  | .OnNextKey, state, _ => state

/-- `ReleaseKey::finished`: `OnNextKey` is never finished; `FrameCount(n)`
finishes once the counter reaches `n`; `Duration` finishes with its timer;
`Immediate` is always finished. -/
def ReleaseKey.finished : ReleaseKey → ReleaseKeyState → Bool
  | .OnNextKey, _ => false
  | .FrameCount target, .Count c => target ≤ c
  | .FrameCount _, _ => false
  | .Duration _, .Timer t => t.isFinished
  | .Duration _, _ => false
  | .Immediate, _ => true

/-- `ReleaseKey::reset`: frame strategies rearm the counter to zero; the
duration strategy rewinds its timer (installing a fresh one if absent);
`OnNextKey` does nothing. -/
def ReleaseKey.reset : ReleaseKey → ReleaseKeyState → ReleaseKeyState
  | .FrameCount _, _ => .Count 0
  | .Immediate, _ => .Count 0
  | .Duration _, .Timer t => .Timer t.resetTimer
  | .Duration d, _ => .Timer ⟨d, 0⟩
  | .OnNextKey, state => state

/-- The `HashSet<KeyInput>` buffers are modelled as duplicate-free lists in
insertion order; `insert` is a no-op on a present element. -/
def hsInsert (x : KeyboardInput) (s : List KeyboardInput) :
    List KeyboardInput :=
  if x ∈ s then s else s ++ [x]

/-- `HashSet::take`: remove and return the stored element equal to `x`. -/
def hsTake (x : KeyboardInput) (s : List KeyboardInput) :
    Option KeyboardInput × List KeyboardInput :=
  if x ∈ s then (some x, s.erase x) else (none, s)

/-- The reciprocal of a buffered event: flip its button state (release for
a stored press; press for a stored repeat-derived release). -/
def reciprocal_event (e : KeyboardInput) : KeyboardInput :=
  { e with
    state := match e.state with
             | .Pressed => ButtonState.Released
             | .Released => ButtonState.Pressed }

/-- The synthetic modifier transition events for the delta between the
stored mask and a new mask: one event per flag of the symmetric
difference, in flag order — pressed if newly set, released if newly
cleared. A `none` from the conversion (the source's panic, unreachable for
the singleton flags produced by iteration) is dropped. -/
def modifier_delta_events (old new : KeyModifiers) (bevy_window : Nat) :
    List KeyboardInput :=
  (new.symmetric_difference old).flags.filterMap (fun flag =>
    let state := if new.hasAll flag then ButtonState.Pressed
                 else ButtonState.Released
    (crossterm_modifier_to_bevy_key flag).bind
      (fun k => modifier_to_bevy k state bevy_window))

/-- The release events flushed for every held modifier flag when the
scheduler has finished, in flag order. -/
def modifier_flush_events (modifiers : KeyModifiers) (bevy_window : Nat) :
    List KeyboardInput :=
  modifiers.flags.filterMap (fun flag =>
    (crossterm_modifier_to_bevy_key flag).bind
      (fun k => modifier_to_bevy k ButtonState.Released bevy_window))

/-- The accumulator threaded through the per-event loop of
`send_key_events_with_emulation`: the modifier mask, the two `LastPress`
buffers, and the events emitted so far this tick. -/
structure LoopAcc where
  modifiers : KeyModifiers
  last0 : List KeyboardInput
  last1 : List KeyboardInput
  out : List KeyboardInput
  deriving DecidableEq, Repr

/-- The body of the per-event loop of `send_key_events_with_emulation`:
translate the event (dropping unmappable ones); emit modifier deltas when
MODIFIER is emulated and the mask changed; queue a repeat-derived event
into the next-frame buffer; then either (KEY_RELEASE emulated) refresh a
held entry silently or insert-and-emit, or (not emulated) emit directly. -/
def process_key_event (policy : EmulationPolicy) (detected : Capability)
    (bevy_window : Nat) (acc : LoopAcc) (key_event : CKeyEvent) : LoopAcc :=
  match key_event_to_bevy key_event bevy_window with
  | none => acc
  | some (bevy_event, mods, repeated) =>
    let emulation := policy.emulate_capabilities detected
    let acc :=
      if emulation.hasAll Capability.MODIFIER && mods != acc.modifiers then
        { acc with
          modifiers := mods,
          out := acc.out ++
            modifier_delta_events acc.modifiers mods bevy_window }
      else acc
    let acc :=
      if repeated then { acc with last1 := hsInsert bevy_event acc.last1 }
      else acc
    if emulation.hasAll Capability.KEY_RELEASE then
      match hsTake bevy_event acc.last0 with
      | (some last_press, rest) =>
        { acc with last0 := rest, last1 := hsInsert last_press acc.last1 }
      | (none, _) =>
        { acc with last1 := hsInsert bevy_event acc.last1,
                   out := acc.out ++ [bevy_event] }
    else
      { acc with out := acc.out ++ [bevy_event] }

/-- The persistent `Local` state of `send_key_events_with_emulation`:
modifier mask, the two `LastPress` buffers (`last1` is empty at every tick
boundary), and the scheduler state. -/
structure EmuState where
  modifiers : KeyModifiers
  last0 : List KeyboardInput
  last1 : List KeyboardInput
  release_state : ReleaseKeyState
  deriving DecidableEq, Repr

def initEmuState : EmuState :=
  { modifiers := KeyModifiers.empty, last0 := [], last1 := [],
    release_state := ReleaseKeyState.None }

/-- One tick of `send_key_events_with_emulation`: tick the scheduler;
return early on an idle tick with an unfinished scheduler; otherwise run
the per-event loop, emit the reciprocal of every unrefreshed entry of the
current-frame buffer (draining it), flush held modifiers if the scheduler
finished and MODIFIER is emulated, then swap the buffers and reset the
scheduler. Returns the new state and this tick's emitted events. -/
def send_key_events_with_emulation (release_key : ReleaseKey)
    (policy : EmulationPolicy) (detected : Capability) (bevy_window : Nat)
    (delta : Nat) (keys : List CKeyEvent) (st : EmuState) :
    EmuState × List KeyboardInput :=
  let rs := release_key.tick st.release_state delta
  if keys.isEmpty && !release_key.finished rs then
    ({ st with release_state := rs }, [])
  else
    let acc := keys.foldl (process_key_event policy detected bevy_window)
      { modifiers := st.modifiers, last0 := st.last0, last1 := st.last1,
        out := [] }
    let out := acc.out ++ acc.last0.map reciprocal_event
    let flush := release_key.finished rs &&
      (policy.emulate_capabilities detected).hasAll Capability.MODIFIER
    let out := if flush
      then out ++ modifier_flush_events acc.modifiers bevy_window else out
    let finalMods := if flush then KeyModifiers.empty else acc.modifiers
    ({ modifiers := finalMods, last0 := acc.last1, last1 := [],
       release_state := release_key.reset rs }, out)

/-- One update tick's input: the elapsed time and the raw key events. -/
structure TickIn where
  delta : Nat
  keys : List CKeyEvent
  deriving DecidableEq, Repr

/-- Run `send_key_events_with_emulation` over a sequence of ticks,
collecting each tick's emitted events. -/
def runEmu (release_key : ReleaseKey) (policy : EmulationPolicy)
    (detected : Capability) (bevy_window : Nat) :
    EmuState → List TickIn → EmuState × List (List KeyboardInput)
  | st, [] => (st, [])
  | st, t :: ts =>
    let step := send_key_events_with_emulation release_key policy detected
      bevy_window t.delta t.keys st
    let rest := runEmu release_key policy detected bevy_window step.1 ts
    (rest.1, step.2 :: rest.2)

/-- The resources touched by the `PreUpdate` capability pipeline: the
`Detected` resource and the presence of the `Emulate` marker resource. -/
structure KbAppState where
  detected : Capability
  emulate : Bool
  deriving DecidableEq, Repr

/-- `reset_emulation_check` (run when the `EmulationPolicy` resource value
changed): insert the `Emulate` marker resource — nothing else. -/
def reset_emulation_check (s : KbAppState) : KbAppState :=
  { s with emulate := true }

/-- The per-event body of `detect_capabilities`: OR in `MODIFIER` for a
modifier-code event and `KEY_RELEASE` for a release-kind event. -/
def detect_step (d : Capability) (key_event : CKeyEvent) : Capability :=
  let d := if (match key_event.code with
               | .Modifier _ => true
               | _ => false)
           then d.union Capability.MODIFIER else d
  if key_event.kind = CKeyEventKind.Release
  then d.union Capability.KEY_RELEASE else d

/-- `detect_capabilities`: sticky capability detection over this tick's
events. -/
def detect_capabilities (keys : List CKeyEvent) (detected : Capability) :
    Capability :=
  keys.foldl detect_step detected

/-- `check_for_emulation`: remove the `Emulate` marker when the effective
emulation set is empty. -/
def check_for_emulation (policy : EmulationPolicy) (s : KbAppState) :
    KbAppState :=
  if (policy.emulate_capabilities s.detected).is_empty then
    { s with emulate := false }
  else s

/-- The `PreUpdate` pipeline of `KeyboardPlugin::build` on these
resources, in system-set order: `reset_emulation_check` (only when the
policy value changed), then — gated on the `Emulate` marker —
`detect_capabilities` chained with `check_for_emulation`. -/
def keyboard_pre_update (policy : EmulationPolicy) (policy_changed : Bool)
    (keys : List CKeyEvent) (s : KbAppState) : KbAppState :=
  let s := if policy_changed then reset_emulation_check s else s
  if s.emulate then
    check_for_emulation policy
      { s with detected := detect_capabilities keys s.detected }
  else s

/-- The canonical key identity of an emitted event: physical code, logical
key and window — everything but the transition. -/
def keyId (e : KeyboardInput) : BKeyCode × BKey × Nat :=
  (e.key_code, e.logical_key, e.window)

/-- Number of events for identity `k` with button state `b` in a stream. -/
def countIdState (k : BKeyCode × BKey × Nat) (b : ButtonState)
    (out : List KeyboardInput) : Nat :=
  (out.filter (fun e => keyId e == k && e.state == b)).length

def pressCount (k : BKeyCode × BKey × Nat) (out : List KeyboardInput) :
    Nat :=
  countIdState k ButtonState.Pressed out

def releaseCount (k : BKeyCode × BKey × Nat) (out : List KeyboardInput) :
    Nat :=
  countIdState k ButtonState.Released out

/-- Number of entries for identity `k` in a held-key buffer. -/
def heldCount (k : BKeyCode × BKey × Nat) (l : List KeyboardInput) : Nat :=
  (l.filter (fun e => keyId e == k)).length

/-- Whether an emitted event is a synthetic-modifier-style event (its
logical key is a modifier key). -/
def isModifierEvent (e : KeyboardInput) : Bool :=
  match e.logical_key with
  | .Shift | .Control | .Alt | .Super | .Hyper | .Meta => true
  | _ => false

/-! Concrete crossterm events and expected bevy events for the scenario
runs. -/

def pressACt : CKeyEvent :=
  ⟨CKeyCode.Char 'a', KeyModifiers.empty, CKeyEventKind.Press⟩

def repeatACt : CKeyEvent :=
  ⟨CKeyCode.Char 'a', KeyModifiers.empty, CKeyEventKind.Repeat⟩

def pressBCt : CKeyEvent :=
  ⟨CKeyCode.Char 'b', KeyModifiers.empty, CKeyEventKind.Press⟩

def pressAShiftCt : CKeyEvent :=
  ⟨CKeyCode.Char 'a', KeyModifiers.SHIFT, CKeyEventKind.Press⟩

def pressAShiftCtrlCt : CKeyEvent :=
  ⟨CKeyCode.Char 'a', KeyModifiers.SHIFT.union KeyModifiers.CONTROL,
   CKeyEventKind.Press⟩

def pressAEvt : KeyboardInput :=
  ⟨BKeyCode.KeyA, BKey.Character "a", ButtonState.Pressed, 0⟩

def releaseAEvt : KeyboardInput :=
  ⟨BKeyCode.KeyA, BKey.Character "a", ButtonState.Released, 0⟩

def pressBEvt : KeyboardInput :=
  ⟨BKeyCode.KeyB, BKey.Character "b", ButtonState.Pressed, 0⟩

def shiftPressEvt : KeyboardInput :=
  ⟨BKeyCode.ShiftLeft, BKey.Shift, ButtonState.Pressed, 0⟩

def shiftReleaseEvt : KeyboardInput :=
  ⟨BKeyCode.ShiftLeft, BKey.Shift, ButtonState.Released, 0⟩

def ctrlPressEvt : KeyboardInput :=
  ⟨BKeyCode.ControlLeft, BKey.Control, ButtonState.Pressed, 0⟩

def ctrlReleaseEvt : KeyboardInput :=
  ⟨BKeyCode.ControlLeft, BKey.Control, ButtonState.Released, 0⟩

/-- The identity of key `a` in the scenario runs. -/
def aId : BKeyCode × BKey × Nat := (BKeyCode.KeyA, BKey.Character "a", 0)

/-- The repeat-handling scenario: repeat-kind events for `a` on two
consecutive ticks, then an idle tick on which the scheduler
(`FrameCount 1`) has finished, with KEY_RELEASE emulation forced. -/
def repeatScenario : EmuState × List (List KeyboardInput) :=
  runEmu (ReleaseKey.FrameCount 1)
    (EmulationPolicy.Manual Capability.KEY_RELEASE) Capability.NONE 0
    initEmuState [⟨1, [repeatACt]⟩, ⟨1, [repeatACt]⟩, ⟨1, []⟩]

/-- The modifier-delta scenario: mask `{shift}` then `{shift, ctrl}` on
key events, then an idle tick on which the `Duration 10` scheduler
finishes, with MODIFIER emulation forced. -/
def modifierScenario : EmuState × List (List KeyboardInput) :=
  runEmu (ReleaseKey.Duration 10)
    (EmulationPolicy.Manual Capability.MODIFIER) Capability.NONE 0
    initEmuState [⟨1, [pressAShiftCt]⟩, ⟨1, [pressAShiftCtrlCt]⟩, ⟨20, []⟩]

/-- Press `a`, then a repeat of `a`, under KEY_RELEASE emulation with the
`OnNextKey` strategy. -/
def pressThenRepeatScenario : EmuState × List (List KeyboardInput) :=
  runEmu ReleaseKey.OnNextKey
    (EmulationPolicy.Manual Capability.KEY_RELEASE) Capability.NONE 0
    initEmuState [⟨1, [pressACt]⟩, ⟨1, [repeatACt]⟩]

/-- Press `a`, `k` idle ticks, then press `b`, under KEY_RELEASE
emulation with the `OnNextKey` strategy. -/
def onNextKeyScenario (k : Nat) : EmuState × List (List KeyboardInput) :=
  runEmu ReleaseKey.OnNextKey
    (EmulationPolicy.Manual Capability.KEY_RELEASE) Capability.NONE 0
    initEmuState
    (⟨1, [pressACt]⟩ :: (List.replicate k ⟨1, []⟩ ++ [⟨1, [pressBCt]⟩]))

/-- The per-event output blocks of one tick's event loop, in arrival
order: each raw event contributes one block, computed from the loop state
the preceding events left behind. -/
def tickBlocks (policy : EmulationPolicy) (detected : Capability)
    (bevy_window : Nat) :
    LoopAcc → List CKeyEvent → List (List KeyboardInput)
  | _, [] => []
  | acc, ev :: evs =>
    let next := process_key_event policy detected bevy_window
      { acc with out := [] } ev
    next.out :: tickBlocks policy detected bevy_window next evs

/-- The synthetic modifier-delta part of one raw event's output block. -/
def modifier_part (policy : EmulationPolicy) (detected : Capability)
    (bevy_window : Nat) (acc : LoopAcc) (key_event : CKeyEvent) :
    List KeyboardInput :=
  match key_event_to_bevy key_event bevy_window with
  | none => []
  | some (_, mods, _) =>
    if (policy.emulate_capabilities detected).hasAll Capability.MODIFIER
        && mods != acc.modifiers then
      modifier_delta_events acc.modifiers mods bevy_window
    else []

/-- The own press/release part of one raw event's output block: nothing
for an unmappable event or a silent refresh of a held entry, otherwise the
translated event itself. -/
def key_part (policy : EmulationPolicy) (detected : Capability)
    (bevy_window : Nat) (acc : LoopAcc) (key_event : CKeyEvent) :
    List KeyboardInput :=
  match key_event_to_bevy key_event bevy_window with
  | none => []
  | some (bevy_event, _, _) =>
    if (policy.emulate_capabilities detected).hasAll Capability.KEY_RELEASE
    then
      match hsTake bevy_event acc.last0 with
      | (some _, _) => []
      | (none, _) => [bevy_event]
    else [bevy_event]

/-- The translated bevy events of one tick's raw events, unmappable ones
dropped. -/
def tickTranslations (bevy_window : Nat) (keys : List CKeyEvent) :
    List KeyboardInput :=
  keys.filterMap (fun ev => (key_event_to_bevy ev bevy_window).map
    (fun r => r.1))

/-- A tick input in which every raw event is press-kind and no two raw
events translate to the same bevy event value. -/
def goodTick (bevy_window : Nat) (t : TickIn) : Prop :=
  (∀ ev ∈ t.keys, ev.kind = CKeyEventKind.Press) ∧
  (tickTranslations bevy_window t.keys).Nodup

instance (bevy_window : Nat) (t : TickIn) :
    Decidable (goodTick bevy_window t) := by
  unfold goodTick; infer_instance

/-- The tick-boundary state invariant of the emulating reconciler on
press-only input: the next-frame buffer is empty and the current-frame
buffer holds pairwise distinct pressed entries. -/
def goodState (st : EmuState) : Prop :=
  st.last1 = [] ∧ st.last0.Nodup ∧
  ∀ e ∈ st.last0, e.state = ButtonState.Pressed

/-- The mid-loop accumulator invariant on press-only input: both buffers
are duplicate-free collections of pressed entries and share no entry. -/
def LoopPre (acc : LoopAcc) : Prop :=
  acc.last0.Nodup ∧ (∀ e ∈ acc.last0, e.state = ButtonState.Pressed) ∧
  acc.last1.Nodup ∧ (∀ e ∈ acc.last1, e.state = ButtonState.Pressed) ∧
  (∀ e ∈ acc.last1, e ∉ acc.last0)

/-- What one run of the event loop does to the counts, relative to its
starting accumulator: no releases are emitted, and per key identity the
held entries plus emitted presses are conserved. -/
def LoopInv (acc acc' : LoopAcc) : Prop :=
  (∀ k, releaseCount k acc'.out = releaseCount k acc.out) ∧
  (∀ k, heldCount k acc.last0 + heldCount k acc.last1
          + pressCount k acc'.out
        = heldCount k acc'.last0 + heldCount k acc'.last1
          + pressCount k acc.out)

/-! ### Helper lemmas -/

theorem Capability.hasAll_refl (d : Capability) : d.hasAll d = true := by
  revert d; decide

theorem Capability.hasAll_trans (a b c : Capability)
    (h1 : a.hasAll b = true) (h2 : b.hasAll c = true) :
    a.hasAll c = true := by
  revert a b c; decide

theorem Capability.hasAll_union_left (d c : Capability) :
    (d.union c).hasAll d = true := by
  revert d c; decide

theorem detect_step_mono (d : Capability) (ev : CKeyEvent) :
    (detect_step d ev).hasAll d = true := by
  unfold detect_step
  split
  · split
    · exact Capability.hasAll_trans _ _ _
        (Capability.hasAll_union_left _ _) (Capability.hasAll_union_left _ _)
    · exact Capability.hasAll_union_left _ _
  · split
    · exact Capability.hasAll_union_left _ _
    · exact Capability.hasAll_refl _

theorem detect_capabilities_mono (keys : List CKeyEvent) :
    ∀ d : Capability, (detect_capabilities keys d).hasAll d = true := by
  induction keys with
  | nil => intro d; exact Capability.hasAll_refl d
  | cons ev evs ih =>
    intro d
    exact Capability.hasAll_trans _ _ _ (ih (detect_step d ev))
      (detect_step_mono d ev)

/-! ### C1 — effective emulation set -/

/-- C1, counterexample: with `detected = {KEY_RELEASE}` and policy
`Manual({KEY_RELEASE})`, the effective emulation set is not
`m − detected` (which would be empty), and it does contain the detected
capability `KEY_RELEASE` — so a capability already detected as natively
provided is emulated. -/
theorem manual_minus_detected_refuted :
    (EmulationPolicy.Manual Capability.KEY_RELEASE).emulate_capabilities
        Capability.KEY_RELEASE
      ≠ Capability.KEY_RELEASE.diff Capability.KEY_RELEASE ∧
    ((EmulationPolicy.Manual Capability.KEY_RELEASE).emulate_capabilities
        Capability.KEY_RELEASE).hasAll Capability.KEY_RELEASE = true := by
  decide

/-- C1, amended: the effective emulation set of `Manual(m)` is `m` itself,
regardless of the detected set; only under `Automatic` is a detected
capability never emulated (the effective set is the complement of
`detected`, so their intersection is empty). -/
theorem effective_emulation_sets :
    (∀ m detected : Capability,
      (EmulationPolicy.Manual m).emulate_capabilities detected = m) ∧
    (∀ detected : Capability,
      (EmulationPolicy.Automatic.emulate_capabilities detected).inter
          detected = Capability.NONE) := by
  decide

/-- Witness for `effective_emulation_sets` at concrete capability sets. -/
theorem effective_emulation_sets_witness :
    (EmulationPolicy.Manual Capability.KEY_RELEASE).emulate_capabilities
        Capability.ALL = Capability.KEY_RELEASE ∧
    (EmulationPolicy.Automatic.emulate_capabilities
        Capability.KEY_RELEASE).inter Capability.KEY_RELEASE
      = Capability.NONE :=
  ⟨effective_emulation_sets.1 Capability.KEY_RELEASE Capability.ALL,
   effective_emulation_sets.2 Capability.KEY_RELEASE⟩

/-! ### C3 — policy change handling -/

/-- C3, counterexample: a policy-change tick (here with no raw events)
leaves `Detected` at `ALL`; it is not reset to `NONE` as the claim
states. -/
theorem policy_change_does_not_reset_detected :
    (keyboard_pre_update (EmulationPolicy.Manual Capability.KEY_RELEASE)
        true [] ⟨Capability.ALL, false⟩).detected = Capability.ALL ∧
    Capability.ALL ≠ Capability.NONE := by
  decide

/-- C3, amended: on a policy-value change the handler only (re)inserts the
`Emulate` marker — `Detected` is left untouched by it; over the whole
`PreUpdate` pipeline the detected set is only ever accumulated (it still
contains everything previously detected), and the marker ends the tick
present exactly when the effective emulation set is non-empty, because the
inserted marker makes `check_for_emulation` re-evaluate before this tick's
event processing. -/
theorem policy_change_inserts_marker_only (policy : EmulationPolicy)
    (keys : List CKeyEvent) (s : KbAppState) :
    (reset_emulation_check s).detected = s.detected ∧
    (reset_emulation_check s).emulate = true ∧
    (keyboard_pre_update policy true keys s).detected
      = detect_capabilities keys s.detected ∧
    (keyboard_pre_update policy true keys s).emulate
      = !(policy.emulate_capabilities
            (detect_capabilities keys s.detected)).is_empty ∧
    (detect_capabilities keys s.detected).hasAll s.detected = true := by
  refine ⟨rfl, rfl, ?_, ?_, detect_capabilities_mono keys s.detected⟩
  · simp only [keyboard_pre_update, reset_emulation_check,
      check_for_emulation, if_true]
    split <;> rfl
  · simp only [keyboard_pre_update, reset_emulation_check,
      check_for_emulation, if_true]
    split <;> simp_all

/-- Witness for `policy_change_inserts_marker_only` at a concrete state. -/
theorem policy_change_inserts_marker_only_witness :
    (keyboard_pre_update EmulationPolicy.Automatic true []
        ⟨Capability.ALL, false⟩).detected
      = detect_capabilities [] Capability.ALL ∧
    (keyboard_pre_update EmulationPolicy.Automatic true []
        ⟨Capability.ALL, false⟩).emulate
      = !(EmulationPolicy.Automatic.emulate_capabilities
            (detect_capabilities [] Capability.ALL)).is_empty :=
  ⟨(policy_change_inserts_marker_only EmulationPolicy.Automatic []
      ⟨Capability.ALL, false⟩).2.2.1,
   (policy_change_inserts_marker_only EmulationPolicy.Automatic []
      ⟨Capability.ALL, false⟩).2.2.2.1⟩

/-! ### C4 — repeat handling -/

/-- C4, counterexample: with KEY_RELEASE emulation active and empty
buffers, a tick whose only raw event is a repeat-kind event for `a` emits
`[release a]` — not `[press a]` — and the following tick with the same
repeat event emits nothing, not `[release a, press a]`. -/
theorem repeat_scenario_refutes_claim :
    repeatScenario.2.take 2 = [[releaseAEvt], []] ∧
    ([[releaseAEvt], []] : List (List KeyboardInput))
      ≠ [[pressAEvt], [releaseAEvt, pressAEvt]] := by
  decide

/-- C4, amended: a tick whose only raw event is a repeat-kind event for
`a` emits exactly `[release a]` (repeat kind translates to a released
event) and queues a pressed re-arm; the next tick with the same repeat
event refreshes that entry and emits nothing; the reciprocal press is
emitted on the first tick the entry goes unrefreshed (here the third,
idle, tick with a finished `FrameCount 1` scheduler). -/
theorem repeat_scenario_behavior :
    repeatScenario.2 = [[releaseAEvt], [], [pressAEvt]] := by
  decide

/-! ### C6 — modifier delta scenario -/

/-- C6, counterexample: in the `∅→{shift}→{shift,ctrl}→∅` scenario the
reconciler emits 4 synthetic modifier transition events, not exactly 3 as
the claim states. -/
theorem modifier_scenario_count_refutes_claim :
    (modifierScenario.2.flatten.filter isModifierEvent).length = 4 ∧
    (4 : Nat) ≠ 3 := by
  decide

/-- C6, amended: the scenario emits exactly 4 synthetic modifier
transition events — shift-press, ctrl-press, then shift-release and
ctrl-release on the finished-scheduler flush — each exactly once, and the
flush clears the stored mask. -/
theorem modifier_scenario_behavior :
    modifierScenario.2.flatten.filter isModifierEvent
      = [shiftPressEvt, ctrlPressEvt, shiftReleaseEvt, ctrlReleaseEvt] ∧
    (modifierScenario.2.flatten.filter isModifierEvent).count shiftPressEvt
      = 1 ∧
    (modifierScenario.2.flatten.filter isModifierEvent).count ctrlPressEvt
      = 1 ∧
    (modifierScenario.2.flatten.filter isModifierEvent).count shiftReleaseEvt
      = 1 ∧
    (modifierScenario.2.flatten.filter isModifierEvent).count ctrlReleaseEvt
      = 1 ∧
    modifierScenario.1.modifiers = KeyModifiers.empty := by
  decide

/-! ### C8 — idle tick -/

/-- C8 (confirmed): a tick with no raw events whose scheduler has not
finished (after this tick's advance) emits zero events and leaves the
modifier mask and both held-key buffers unchanged — only the scheduler
state advances. -/
theorem idle_tick_is_noop (release_key : ReleaseKey)
    (policy : EmulationPolicy) (detected : Capability) (bevy_window : Nat)
    (delta : Nat) (st : EmuState)
    (h : release_key.finished
        (release_key.tick st.release_state delta) = false) :
    send_key_events_with_emulation release_key policy detected bevy_window
        delta [] st
      = ({ st with release_state :=
             release_key.tick st.release_state delta }, []) := by
  simp [send_key_events_with_emulation, h]

/-- Witness for `idle_tick_is_noop`: a fresh `FrameCount 5` scheduler. -/
theorem idle_tick_is_noop_witness :
    (ReleaseKey.FrameCount 5).finished
        ((ReleaseKey.FrameCount 5).tick initEmuState.release_state 1)
      = false ∧
    send_key_events_with_emulation (ReleaseKey.FrameCount 5)
        EmulationPolicy.Automatic Capability.NONE 0 1 [] initEmuState
      = ({ initEmuState with release_state :=
             (ReleaseKey.FrameCount 5).tick initEmuState.release_state 1 },
         []) :=
  ⟨by decide,
   idle_tick_is_noop (ReleaseKey.FrameCount 5) EmulationPolicy.Automatic
     Capability.NONE 0 1 initEmuState (by decide)⟩

/-! ### C9 — modifier flag conversion -/

set_option maxRecDepth 4096 in
/-- C9 (confirmed): `crossterm_modifier_to_bevy_key` succeeds (returns
without aborting) exactly on arguments with exactly one modifier bit set;
on zero bits or several bits it aborts (modelled `none`). Every flag
obtained by iterating a `KeyModifiers` value — as the reconciler does on a
delta — has exactly one bit set and converts successfully, so the abort
branch is unreachable from the reconciler. -/
theorem modifier_flag_conversion :
    (∀ m : KeyModifiers,
      (crossterm_modifier_to_bevy_key m).isSome = true ↔ m.popCount = 1) ∧
    (∀ m : KeyModifiers, ∀ f ∈ m.flags,
      f.popCount = 1 ∧ (crossterm_modifier_to_bevy_key f).isSome = true) := by
  decide

/-- Witness for `modifier_flag_conversion`: the `SHIFT` flag drawn from
iterating the two-bit mask `{SHIFT, CONTROL}`. -/
theorem modifier_flag_conversion_witness :
    KeyModifiers.SHIFT.popCount = 1 ∧
    (crossterm_modifier_to_bevy_key KeyModifiers.SHIFT).isSome = true :=
  modifier_flag_conversion.2
    (KeyModifiers.SHIFT.union KeyModifiers.CONTROL) KeyModifiers.SHIFT
    (by decide)

/-! ### C10 — held-key set identity -/

/-- C10 (confirmed): membership in the held-key buffers is decided by the
full event value — for any key identity, a pressed entry and a released
entry are distinct elements, and looking up a (repeat-derived) released
event in a current-frame buffer holding the pressed entry misses, leaving
the buffer unchanged. -/
theorem held_key_full_value_identity (kc : BKeyCode) (lk : BKey)
    (w : Nat) :
    (⟨kc, lk, ButtonState.Pressed, w⟩ : KeyboardInput)
      ≠ ⟨kc, lk, ButtonState.Released, w⟩ ∧
    hsTake ⟨kc, lk, ButtonState.Released, w⟩
        [⟨kc, lk, ButtonState.Pressed, w⟩]
      = (none, [⟨kc, lk, ButtonState.Pressed, w⟩]) := by
  constructor
  · simp [KeyboardInput.mk.injEq]
  · simp [hsTake, KeyboardInput.mk.injEq]

/-! ### C5 — intra-tick ordering -/

/-- The blocks of a tick do not depend on the `out` field of the starting
accumulator. -/
theorem tickBlocks_out_irrel (policy : EmulationPolicy)
    (detected : Capability) (bevy_window : Nat) (m : KeyModifiers)
    (l0 l1 o o' : List KeyboardInput) (keys : List CKeyEvent) :
    tickBlocks policy detected bevy_window ⟨m, l0, l1, o⟩ keys
      = tickBlocks policy detected bevy_window ⟨m, l0, l1, o'⟩ keys := by
  cases keys <;> rfl

/-- `process_key_event` appends its emissions to the incoming `out` and
computes the rest of the accumulator independently of it. -/
theorem process_key_event_out (policy : EmulationPolicy)
    (detected : Capability) (bevy_window : Nat) (acc : LoopAcc)
    (key_event : CKeyEvent) :
    process_key_event policy detected bevy_window acc key_event
      = { process_key_event policy detected bevy_window
            { acc with out := [] } key_event with
          out := acc.out
            ++ (process_key_event policy detected bevy_window
                  { acc with out := [] } key_event).out } := by
  unfold process_key_event
  cases h : key_event_to_bevy key_event bevy_window with
  | none => simp
  | some v =>
    obtain ⟨be, mods, rep⟩ := v
    dsimp only
    split <;> split <;>
      (split <;> simp_all [hsTake]
        <;> split <;> simp_all)

/-- Unfolding equation for `tickBlocks` on a non-empty event list. -/
theorem tickBlocks_cons (policy : EmulationPolicy) (detected : Capability)
    (bevy_window : Nat) (acc : LoopAcc) (ev : CKeyEvent)
    (evs : List CKeyEvent) :
    tickBlocks policy detected bevy_window acc (ev :: evs)
      = (process_key_event policy detected bevy_window
          { acc with out := [] } ev).out
        :: tickBlocks policy detected bevy_window
          (process_key_event policy detected bevy_window
            { acc with out := [] } ev) evs :=
  rfl

/-- The full event loop of a tick emits exactly the concatenation, in
arrival order, of the per-event blocks. -/
theorem foldl_process_out (policy : EmulationPolicy)
    (detected : Capability) (bevy_window : Nat) (keys : List CKeyEvent) :
    ∀ acc : LoopAcc,
      (keys.foldl (process_key_event policy detected bevy_window) acc).out
        = acc.out
          ++ (tickBlocks policy detected bevy_window acc keys).flatten := by
  induction keys with
  | nil => intro acc; simp [tickBlocks]
  | cons ev evs ih =>
    intro acc
    rw [List.foldl_cons,
      process_key_event_out policy detected bevy_window acc ev,
      tickBlocks_cons]
    cases hnext : process_key_event policy detected bevy_window
      { acc with out := [] } ev with
    | mk m1 l01 l11 o1 =>
      dsimp only
      rw [ih]
      rw [tickBlocks_out_irrel policy detected bevy_window m1 l01 l11
        (acc.out ++ o1) o1 evs]
      simp [List.append_assoc]

/-- C5 (confirmed): within one non-idle tick, the emitted stream
decomposes as — first the per-raw-event blocks concatenated in arrival
order (the event loop), then the reciprocal (synthetic cross-tick
release/re-press) events of the unrefreshed current-frame entries, then
the finished-scheduler modifier flush; and every per-event block is its
synthetic modifier-delta events followed by that event's own
press/release emission. -/
theorem tick_output_ordering (release_key : ReleaseKey)
    (policy : EmulationPolicy) (detected : Capability) (bevy_window : Nat)
    (delta : Nat) (keys : List CKeyEvent) (st : EmuState) (acc : LoopAcc)
    (ev : CKeyEvent)
    (h : (keys.isEmpty && !release_key.finished
        (release_key.tick st.release_state delta)) = false) :
    ((send_key_events_with_emulation release_key policy detected
        bevy_window delta keys st).2
      = (tickBlocks policy detected bevy_window
            ⟨st.modifiers, st.last0, st.last1, []⟩ keys).flatten
        ++ (keys.foldl (process_key_event policy detected bevy_window)
              ⟨st.modifiers, st.last0, st.last1, []⟩).last0.map
            reciprocal_event
        ++ (if release_key.finished
              (release_key.tick st.release_state delta) &&
              (policy.emulate_capabilities detected).hasAll
                Capability.MODIFIER
            then modifier_flush_events
              (keys.foldl (process_key_event policy detected bevy_window)
                ⟨st.modifiers, st.last0, st.last1, []⟩).modifiers
              bevy_window
            else [])) ∧
    (process_key_event policy detected bevy_window { acc with out := [] }
        ev).out
      = modifier_part policy detected bevy_window acc ev
        ++ key_part policy detected bevy_window acc ev := by
  constructor
  · unfold send_key_events_with_emulation
    dsimp only
    rw [h]
    simp only [Bool.false_eq_true, if_false]
    have hout := foldl_process_out policy detected bevy_window keys
      ⟨st.modifiers, st.last0, st.last1, []⟩
    rw [hout]
    simp only [List.nil_append]
    split <;> simp [List.append_assoc]
  · unfold process_key_event modifier_part key_part
    cases h : key_event_to_bevy ev bevy_window with
    | none => simp
    | some v =>
      obtain ⟨be, mods, rep⟩ := v
      dsimp only
      split <;> split <;>
        (split <;> simp_all [hsTake]
          <;> split <;> simp_all)

/-- Witness for `tick_output_ordering`: one press event under the
`OnNextKey` strategy, with the block decomposition instantiated at the
empty accumulator. -/
theorem tick_output_ordering_witness :
    ((send_key_events_with_emulation ReleaseKey.OnNextKey
        (EmulationPolicy.Manual Capability.KEY_RELEASE) Capability.NONE 0 1
        [pressACt] initEmuState).2
      = (tickBlocks (EmulationPolicy.Manual Capability.KEY_RELEASE)
            Capability.NONE 0 ⟨KeyModifiers.empty, [], [], []⟩
            [pressACt]).flatten
        ++ ([pressACt].foldl
              (process_key_event
                (EmulationPolicy.Manual Capability.KEY_RELEASE)
                Capability.NONE 0)
              ⟨KeyModifiers.empty, [], [], []⟩).last0.map reciprocal_event
        ++ (if ReleaseKey.OnNextKey.finished
              (ReleaseKey.OnNextKey.tick initEmuState.release_state 1) &&
              ((EmulationPolicy.Manual
                  Capability.KEY_RELEASE).emulate_capabilities
                Capability.NONE).hasAll Capability.MODIFIER
            then modifier_flush_events
              ([pressACt].foldl
                (process_key_event
                  (EmulationPolicy.Manual Capability.KEY_RELEASE)
                  Capability.NONE 0)
                ⟨KeyModifiers.empty, [], [], []⟩).modifiers 0
            else [])) ∧
    (process_key_event (EmulationPolicy.Manual Capability.KEY_RELEASE)
        Capability.NONE 0
        { (⟨KeyModifiers.empty, [], [], [pressAEvt]⟩ : LoopAcc) with
          out := [] } pressACt).out
      = modifier_part (EmulationPolicy.Manual Capability.KEY_RELEASE)
          Capability.NONE 0 ⟨KeyModifiers.empty, [], [], [pressAEvt]⟩
          pressACt
        ++ key_part (EmulationPolicy.Manual Capability.KEY_RELEASE)
          Capability.NONE 0 ⟨KeyModifiers.empty, [], [], [pressAEvt]⟩
          pressACt :=
  tick_output_ordering ReleaseKey.OnNextKey
    (EmulationPolicy.Manual Capability.KEY_RELEASE) Capability.NONE 0 1
    [pressACt] initEmuState ⟨KeyModifiers.empty, [], [], [pressAEvt]⟩
    pressACt (by decide)

/-! ### C7 — OnNextKey strategy -/

/-- An idle tick under the `OnNextKey` strategy is a complete no-op: the
scheduler never finishes, its state is never advanced, and the early
return leaves the state untouched. -/
theorem on_next_key_idle_step (policy : EmulationPolicy)
    (detected : Capability) (bevy_window delta : Nat) (st : EmuState) :
    send_key_events_with_emulation ReleaseKey.OnNextKey policy detected
      bevy_window delta [] st = (st, []) := by
  simp [send_key_events_with_emulation, ReleaseKey.tick,
    ReleaseKey.finished]

/-- Idle ticks under `OnNextKey` contribute empty outputs and leave the
state for the remaining ticks unchanged. -/
theorem runEmu_on_next_key_idle (policy : EmulationPolicy)
    (detected : Capability) (bevy_window : Nat) (k : Nat)
    (rest : List TickIn) (st : EmuState) :
    runEmu ReleaseKey.OnNextKey policy detected bevy_window st
        (List.replicate k ⟨1, []⟩ ++ rest)
      = ((runEmu ReleaseKey.OnNextKey policy detected bevy_window st
            rest).1,
         List.replicate k []
           ++ (runEmu ReleaseKey.OnNextKey policy detected bevy_window st
                 rest).2) := by
  induction k with
  | zero => simp
  | succ n ih =>
    simp only [List.replicate_succ, List.cons_append, runEmu,
      on_next_key_idle_step, List.append_eq, ih]

/-- C7, counterexample: pressing `a`, two idle ticks, then pressing `b`
(OnNextKey strategy, KEY_RELEASE emulation): on `b`'s tick the output is
`[press b, release a]` — the synthetic release of `a` comes after the real
press of `b`, not before it as the claim orders them. -/
theorem on_next_key_order_refutes_claim :
    (onNextKeyScenario 2).2.getLast? = some [pressBEvt, releaseAEvt] ∧
    some [pressBEvt, releaseAEvt] ≠ some [releaseAEvt, pressBEvt] := by
  decide

/-- C7, amended: under `OnNextKey` the scheduler's finished predicate is
constantly false, so after press `a` and any number `k` of idle ticks no
release of `a` is emitted (idle outputs are all empty); the release
arrives only on the tick that carries press `b`, whose output is
`[press b, release a]` — both events on `b`'s tick, press first. -/
theorem on_next_key_scenario_behavior (k : Nat) :
    (∀ s : ReleaseKeyState, ReleaseKey.OnNextKey.finished s = false) ∧
    (onNextKeyScenario k).2
      = [pressAEvt]
          :: (List.replicate k [] ++ [[pressBEvt, releaseAEvt]]) := by
  refine ⟨fun s => rfl, ?_⟩
  unfold onNextKeyScenario
  have h1 : send_key_events_with_emulation ReleaseKey.OnNextKey
      (EmulationPolicy.Manual Capability.KEY_RELEASE) Capability.NONE 0 1
      [pressACt] initEmuState
      = (⟨KeyModifiers.empty, [pressAEvt], [], ReleaseKeyState.None⟩,
         [pressAEvt]) := by decide
  have h2 : runEmu ReleaseKey.OnNextKey
      (EmulationPolicy.Manual Capability.KEY_RELEASE) Capability.NONE 0
      ⟨KeyModifiers.empty, [pressAEvt], [], ReleaseKeyState.None⟩
      [⟨1, [pressBCt]⟩]
      = (⟨KeyModifiers.empty, [pressBEvt], [], ReleaseKeyState.None⟩,
         [[pressBEvt, releaseAEvt]]) := by decide
  simp only [runEmu, h1]
  rw [runEmu_on_next_key_idle, h2]

/-- Witness for `on_next_key_scenario_behavior` at three idle ticks. -/
theorem on_next_key_scenario_behavior_witness :
    (onNextKeyScenario 3).2
      = [pressAEvt]
          :: (List.replicate 3 [] ++ [[pressBEvt, releaseAEvt]]) :=
  (on_next_key_scenario_behavior 3).2

/-! ### C2 — exactly-once release -/

theorem keyId_reciprocal (e : KeyboardInput) :
    keyId (reciprocal_event e) = keyId e := by
  cases e; rfl

theorem reciprocal_state_pressed (e : KeyboardInput)
    (h : e.state = ButtonState.Pressed) :
    (reciprocal_event e).state = ButtonState.Released := by
  cases e; subst h; rfl

theorem eq_of_keyId_of_state (e e' : KeyboardInput)
    (h : keyId e = keyId e') (hs : e.state = e'.state) : e = e' := by
  cases e; cases e'
  simp only [keyId, Prod.mk.injEq] at h
  simp_all

theorem countIdState_append (k : BKeyCode × BKey × Nat) (b : ButtonState)
    (l1 l2 : List KeyboardInput) :
    countIdState k b (l1 ++ l2)
      = countIdState k b l1 + countIdState k b l2 := by
  simp [countIdState, List.filter_append]

theorem heldCount_append (k : BKeyCode × BKey × Nat)
    (l1 l2 : List KeyboardInput) :
    heldCount k (l1 ++ l2) = heldCount k l1 + heldCount k l2 := by
  simp [heldCount, List.filter_append]

theorem countIdState_cons (k : BKeyCode × BKey × Nat) (b : ButtonState)
    (x : KeyboardInput) (xs : List KeyboardInput) :
    countIdState k b (x :: xs)
      = countIdState k b [x] + countIdState k b xs := by
  simpa using countIdState_append k b [x] xs

theorem heldCount_cons (k : BKeyCode × BKey × Nat) (x : KeyboardInput)
    (xs : List KeyboardInput) :
    heldCount k (x :: xs) = heldCount k [x] + heldCount k xs := by
  simpa using heldCount_append k [x] xs

theorem heldCount_perm (k : BKeyCode × BKey × Nat)
    (l l' : List KeyboardInput) (h : l.Perm l') :
    heldCount k l = heldCount k l' :=
  (h.filter _).length_eq

theorem countIdState_pressed_singleton (k : BKeyCode × BKey × Nat)
    (e : KeyboardInput) (h : e.state = ButtonState.Pressed) :
    countIdState k ButtonState.Pressed [e] = heldCount k [e] ∧
    countIdState k ButtonState.Released [e] = 0 := by
  have h1 : (ButtonState.Pressed == ButtonState.Released) = false := rfl
  have h2 : (ButtonState.Pressed == ButtonState.Pressed) = true := rfl
  constructor <;> simp [countIdState, heldCount, List.filter, h, h1, h2]

theorem countIdState_released_singleton (k : BKeyCode × BKey × Nat)
    (e : KeyboardInput) (h : e.state = ButtonState.Released) :
    countIdState k ButtonState.Released [e] = heldCount k [e] ∧
    countIdState k ButtonState.Pressed [e] = 0 := by
  have h1 : (ButtonState.Released == ButtonState.Pressed) = false := rfl
  have h2 : (ButtonState.Released == ButtonState.Released) = true := rfl
  constructor <;> simp [countIdState, heldCount, List.filter, h, h1, h2]

theorem heldCount_reciprocal_singleton (k : BKeyCode × BKey × Nat)
    (e : KeyboardInput) :
    heldCount k [reciprocal_event e] = heldCount k [e] := by
  simp only [heldCount, List.filter, keyId_reciprocal]
  cases keyId e == k <;> rfl

/-- Draining a buffer of pressed entries emits one release per entry (by
identity) and no presses. -/
theorem drain_counts (k : BKeyCode × BKey × Nat) (l : List KeyboardInput)
    (h : ∀ e ∈ l, e.state = ButtonState.Pressed) :
    releaseCount k (l.map reciprocal_event) = heldCount k l ∧
    pressCount k (l.map reciprocal_event) = 0 := by
  induction l with
  | nil => simp [releaseCount, pressCount, countIdState, heldCount]
  | cons e es ih =>
    have he := h e (by simp)
    have ihes := ih (fun e' he' => h e' (by simp [he']))
    have hrec := countIdState_released_singleton k (reciprocal_event e)
      (reciprocal_state_pressed e he)
    simp only [List.map_cons]
    constructor
    · rw [show releaseCount k
            (reciprocal_event e :: List.map reciprocal_event es)
          = countIdState k ButtonState.Released [reciprocal_event e]
            + releaseCount k (List.map reciprocal_event es) from
          countIdState_cons _ _ _ _,
        ihes.1, hrec.1, heldCount_reciprocal_singleton,
        heldCount_cons k e es]
    · rw [show pressCount k
            (reciprocal_event e :: List.map reciprocal_event es)
          = countIdState k ButtonState.Pressed [reciprocal_event e]
            + pressCount k (List.map reciprocal_event es) from
          countIdState_cons _ _ _ _,
        ihes.2, hrec.2]

/-- In a duplicate-free buffer of pressed entries, each identity occurs at
most once. -/
theorem heldCount_le_one (k : BKeyCode × BKey × Nat)
    (l : List KeyboardInput) (hnodup : l.Nodup)
    (hp : ∀ e ∈ l, e.state = ButtonState.Pressed) : heldCount k l ≤ 1 := by
  induction l with
  | nil => simp [heldCount]
  | cons e es ih =>
    rw [heldCount_cons]
    by_cases hk : keyId e = k
    · have h0 : heldCount k es = 0 := by
        rw [heldCount, List.length_eq_zero]
        by_contra hne
        obtain ⟨e', he'⟩ := List.exists_mem_of_ne_nil _ hne
        have hmem := List.mem_filter.mp he'
        have hid : keyId e' = k := by
          have := hmem.2
          simpa using this
        have : e' = e := eq_of_keyId_of_state e' e (by rw [hid, hk])
          (by rw [hp e' (by simp [hmem.1]), hp e (by simp)])
        subst this
        exact (List.nodup_cons.mp hnodup).1 hmem.1
      have h1 : heldCount k [e] ≤ 1 := by
        simp only [heldCount, List.filter]
        cases keyId e == k <;> simp
      omega
    · have h1 : heldCount k [e] = 0 := by
        have hb : (keyId e == k) = false := beq_eq_false_iff_ne.mpr hk
        simp [heldCount, List.filter, hb]
      have := ih (List.nodup_cons.mp hnodup).2
        (fun e' he' => hp e' (by simp [he']))
      omega

/-- A press-kind event translates to a pressed, non-repeat bevy event. -/
theorem key_event_to_bevy_press (ev : CKeyEvent) (w : Nat)
    (be : KeyboardInput) (mods : KeyModifiers) (rep : Bool)
    (hkind : ev.kind = CKeyEventKind.Press)
    (h : key_event_to_bevy ev w = some (be, mods, rep)) :
    be.state = ButtonState.Pressed ∧ rep = false := by
  unfold key_event_to_bevy at h
  rw [hkind] at h
  cases hkc : to_bevy_keycode ev.code with
  | none => rw [hkc] at h; exact absurd h (by simp)
  | some v =>
    obtain ⟨kc, m2⟩ := v
    cases hk : to_bevy_key ev.code with
    | none => rw [hkc, hk] at h; exact absurd h (by simp)
    | some lk =>
      rw [hkc, hk] at h
      simp only [Option.some.injEq, Prod.mk.injEq] at h
      obtain ⟨hbe, _, hrep⟩ := h
      subst hbe
      exact ⟨rfl, hrep.symm⟩

/-- With policy `Manual(KEY_RELEASE)`, processing a translated non-repeat
event either silently refreshes a held entry or inserts it and emits it. -/
theorem process_press (d : Capability) (w : Nat) (acc : LoopAcc)
    (ev : CKeyEvent) (be : KeyboardInput) (mods : KeyModifiers)
    (hev : key_event_to_bevy ev w = some (be, mods, false)) :
    process_key_event (EmulationPolicy.Manual Capability.KEY_RELEASE) d w
        acc ev
      = if be ∈ acc.last0
        then { acc with last0 := acc.last0.erase be,
                        last1 := hsInsert be acc.last1 }
        else { acc with last1 := hsInsert be acc.last1,
                        out := acc.out ++ [be] } := by
  unfold process_key_event
  rw [hev]
  have hmod : (((EmulationPolicy.Manual
      Capability.KEY_RELEASE).emulate_capabilities d).hasAll
      Capability.MODIFIER) = false := rfl
  have hkr : (((EmulationPolicy.Manual
      Capability.KEY_RELEASE).emulate_capabilities d).hasAll
      Capability.KEY_RELEASE) = true := rfl
  dsimp only
  rw [hmod, hkr]
  simp only [Bool.false_and, Bool.false_eq_true, if_false, if_true]
  by_cases hmem : be ∈ acc.last0
  · simp [hsTake, hmem]
  · simp [hsTake, hmem]

theorem process_key_event_unmappable (p : EmulationPolicy)
    (d : Capability) (w : Nat) (acc : LoopAcc) (ev : CKeyEvent)
    (h : key_event_to_bevy ev w = none) :
    process_key_event p d w acc ev = acc := by
  unfold process_key_event; rw [h]

theorem hsInsert_not_mem (x : KeyboardInput) (s : List KeyboardInput)
    (h : x ∉ s) : hsInsert x s = s ++ [x] := by
  simp [hsInsert, h]

theorem tickTranslations_cons_none (w : Nat) (ev : CKeyEvent)
    (evs : List CKeyEvent) (h : key_event_to_bevy ev w = none) :
    tickTranslations w (ev :: evs) = tickTranslations w evs := by
  simp [tickTranslations, List.filterMap_cons, h]

theorem tickTranslations_cons_some (w : Nat) (ev : CKeyEvent)
    (evs : List CKeyEvent) (be : KeyboardInput) (mods : KeyModifiers)
    (rep : Bool) (h : key_event_to_bevy ev w = some (be, mods, rep)) :
    tickTranslations w (ev :: evs) = be :: tickTranslations w evs := by
  simp [tickTranslations, List.filterMap_cons, h]

/-- The event-loop invariant: on press-only input whose translations are
pairwise distinct and fresh for the next-frame buffer, the loop under
policy `Manual(KEY_RELEASE)` preserves `LoopPre` and satisfies
`LoopInv`. -/
theorem loop_invariant (d : Capability) (w : Nat) (keys : List CKeyEvent) :
    ∀ acc : LoopAcc,
      (∀ ev ∈ keys, ev.kind = CKeyEventKind.Press) →
      (tickTranslations w keys).Nodup →
      (∀ t ∈ tickTranslations w keys, t ∉ acc.last1) →
      LoopPre acc →
      LoopPre (keys.foldl (process_key_event
          (EmulationPolicy.Manual Capability.KEY_RELEASE) d w) acc) ∧
      LoopInv acc (keys.foldl (process_key_event
          (EmulationPolicy.Manual Capability.KEY_RELEASE) d w) acc) := by
  induction keys with
  | nil =>
    intro acc _ _ _ hpre
    exact ⟨hpre, fun _ => rfl, fun _ => rfl⟩
  | cons ev evs ih =>
    intro acc hkinds hnd hfresh hpre
    obtain ⟨hnd0, hp0, hnd1, hp1, hdisj⟩ := hpre
    have hkind : ev.kind = CKeyEventKind.Press := hkinds ev (by simp)
    have hkinds' : ∀ e ∈ evs, e.kind = CKeyEventKind.Press :=
      fun e he => hkinds e (by simp [he])
    cases hev : key_event_to_bevy ev w with
    | none =>
      rw [List.foldl_cons,
        process_key_event_unmappable _ _ _ _ _ hev]
      rw [tickTranslations_cons_none w ev evs hev] at hnd hfresh
      exact ih acc hkinds' hnd hfresh ⟨hnd0, hp0, hnd1, hp1, hdisj⟩
    | some v =>
      obtain ⟨be, mods, rep⟩ := v
      obtain ⟨hbe_state, hrep⟩ :=
        key_event_to_bevy_press ev w be mods rep hkind hev
      subst hrep
      rw [tickTranslations_cons_some w ev evs be mods false hev]
        at hnd hfresh
      have hnotin : be ∉ tickTranslations w evs :=
        (List.nodup_cons.mp hnd).1
      have hnd' : (tickTranslations w evs).Nodup :=
        (List.nodup_cons.mp hnd).2
      have hbe_fresh : be ∉ acc.last1 := hfresh be (by simp)
      have hfresh' : ∀ t ∈ tickTranslations w evs, t ∉ acc.last1 :=
        fun t ht => hfresh t (by simp [ht])
      rw [List.foldl_cons, process_press d w acc ev be mods hev]
      by_cases hmem : be ∈ acc.last0
      · rw [if_pos hmem, hsInsert_not_mem be acc.last1 hbe_fresh]
        have hpre1 : LoopPre ⟨acc.modifiers, acc.last0.erase be,
            acc.last1 ++ [be], acc.out⟩ := by
          refine ⟨hnd0.erase be, ?_, ?_, ?_, ?_⟩
          · intro e he
            exact hp0 e (List.mem_of_mem_erase he)
          · simp only [List.nodup_append, List.nodup_cons,
              List.not_mem_nil, not_false_iff, List.nodup_nil, true_and,
              and_true]
            refine ⟨hnd1, ?_⟩
            intro x hx
            simp only [List.mem_singleton]
            intro hxbe
            exact hbe_fresh (hxbe ▸ hx)
          · intro e he
            rcases List.mem_append.mp he with h1 | h1
            · exact hp1 e h1
            · rw [List.mem_singleton.mp h1]; exact hbe_state
          · intro e he
            rcases List.mem_append.mp he with h1 | h1
            · intro hcontra
              exact hdisj e h1 (List.mem_of_mem_erase hcontra)
            · rw [List.mem_singleton.mp h1]
              intro hcontra
              exact ((List.Nodup.mem_erase_iff hnd0).mp hcontra).1 rfl
        have hfresh1 : ∀ t ∈ tickTranslations w evs,
            t ∉ acc.last1 ++ [be] := by
          intro t ht
          simp only [List.mem_append, List.mem_singleton]
          rintro (h1 | h1)
          · exact hfresh' t ht h1
          · exact hnotin (h1 ▸ ht)
        obtain ⟨hpost, hrel, hcount⟩ :=
          ih ⟨acc.modifiers, acc.last0.erase be, acc.last1 ++ [be],
            acc.out⟩ hkinds' hnd' hfresh1 hpre1
        refine ⟨hpost, ?_, ?_⟩
        · intro k; exact hrel k
        · intro k
          have hc := hcount k
          have hperm : heldCount k acc.last0
              = heldCount k [be] + heldCount k (acc.last0.erase be) := by
            rw [heldCount_perm k acc.last0 (be :: acc.last0.erase be)
              (List.perm_cons_erase hmem)]
            exact heldCount_cons k be (acc.last0.erase be)
          have happ : heldCount k (acc.last1 ++ [be])
              = heldCount k acc.last1 + heldCount k [be] :=
            heldCount_append k acc.last1 [be]
          dsimp only at hc
          omega
      · rw [if_neg hmem, hsInsert_not_mem be acc.last1 hbe_fresh]
        have hpre1 : LoopPre ⟨acc.modifiers, acc.last0,
            acc.last1 ++ [be], acc.out ++ [be]⟩ := by
          refine ⟨hnd0, hp0, ?_, ?_, ?_⟩
          · simp only [List.nodup_append, List.nodup_cons,
              List.not_mem_nil, not_false_iff, List.nodup_nil, true_and,
              and_true]
            refine ⟨hnd1, ?_⟩
            intro x hx
            simp only [List.mem_singleton]
            intro hxbe
            exact hbe_fresh (hxbe ▸ hx)
          · intro e he
            rcases List.mem_append.mp he with h1 | h1
            · exact hp1 e h1
            · rw [List.mem_singleton.mp h1]; exact hbe_state
          · intro e he
            rcases List.mem_append.mp he with h1 | h1
            · exact hdisj e h1
            · rw [List.mem_singleton.mp h1]; exact hmem
        have hfresh1 : ∀ t ∈ tickTranslations w evs,
            t ∉ acc.last1 ++ [be] := by
          intro t ht
          simp only [List.mem_append, List.mem_singleton]
          rintro (h1 | h1)
          · exact hfresh' t ht h1
          · exact hnotin (h1 ▸ ht)
        obtain ⟨hpost, hrel, hcount⟩ :=
          ih ⟨acc.modifiers, acc.last0, acc.last1 ++ [be],
            acc.out ++ [be]⟩ hkinds' hnd' hfresh1 hpre1
        refine ⟨hpost, ?_, ?_⟩
        · intro k
          have hr := hrel k
          have hrapp : releaseCount k (acc.out ++ [be])
              = releaseCount k acc.out := by
            rw [show releaseCount k (acc.out ++ [be])
                = releaseCount k acc.out
                  + countIdState k ButtonState.Released [be] from
              countIdState_append k ButtonState.Released acc.out [be],
              (countIdState_pressed_singleton k be hbe_state).2]
            omega
          dsimp only at hr
          rw [hr, hrapp]
        · intro k
          have hc := hcount k
          have hpapp : pressCount k (acc.out ++ [be])
              = pressCount k acc.out + heldCount k [be] := by
            rw [show pressCount k (acc.out ++ [be])
                = pressCount k acc.out
                  + countIdState k ButtonState.Pressed [be] from
              countIdState_append k ButtonState.Pressed acc.out [be],
              (countIdState_pressed_singleton k be hbe_state).1]
          have happ : heldCount k (acc.last1 ++ [be])
              = heldCount k acc.last1 + heldCount k [be] :=
            heldCount_append k acc.last1 [be]
          dsimp only at hc
          omega

/-- One tick under policy `Manual(KEY_RELEASE)` on a good press-only tick
input preserves the boundary invariant and conserves per-identity counts:
held-before plus presses-emitted equals releases-emitted plus
held-after. -/
theorem tick_invariant (release_key : ReleaseKey) (d : Capability)
    (w delta : Nat) (keys : List CKeyEvent) (st : EmuState)
    (hgood : goodTick w ⟨delta, keys⟩) (hst : goodState st) :
    goodState (send_key_events_with_emulation release_key
        (EmulationPolicy.Manual Capability.KEY_RELEASE) d w delta keys
        st).1 ∧
    ∀ k, heldCount k st.last0
          + pressCount k (send_key_events_with_emulation release_key
              (EmulationPolicy.Manual Capability.KEY_RELEASE) d w delta
              keys st).2
        = releaseCount k (send_key_events_with_emulation release_key
              (EmulationPolicy.Manual Capability.KEY_RELEASE) d w delta
              keys st).2
          + heldCount k (send_key_events_with_emulation release_key
              (EmulationPolicy.Manual Capability.KEY_RELEASE) d w delta
              keys st).1.last0 := by
  obtain ⟨hkinds, hnd⟩ := hgood
  obtain ⟨hl1, hnd0, hp0⟩ := hst
  unfold send_key_events_with_emulation
  by_cases hidle : (keys.isEmpty && !release_key.finished
      (release_key.tick st.release_state delta)) = true
  · rw [if_pos hidle]
    refine ⟨⟨hl1, hnd0, hp0⟩, ?_⟩
    intro k
    dsimp only
    have hz : pressCount k [] = 0 := rfl
    have hz' : releaseCount k [] = 0 := rfl
    omega
  · rw [if_neg hidle]
    rw [hl1]
    have hloop := loop_invariant d w keys
      ⟨st.modifiers, st.last0, [], []⟩ hkinds hnd
      (by intro t ht; simp)
      ⟨hnd0, hp0, List.nodup_nil, by simp, by simp⟩
    obtain ⟨⟨hnd0', hp0', hnd1', hp1', _⟩, hrel, hcnt⟩ := hloop
    have hflush : (((EmulationPolicy.Manual
        Capability.KEY_RELEASE).emulate_capabilities d).hasAll
        Capability.MODIFIER) = false := rfl
    simp only [hflush, Bool.and_false, Bool.false_eq_true, if_false]
    refine ⟨⟨rfl, hnd1', hp1'⟩, ?_⟩
    intro k
    have hdrain := drain_counts k
      (keys.foldl (process_key_event
        (EmulationPolicy.Manual Capability.KEY_RELEASE) d w)
        ⟨st.modifiers, st.last0, [], []⟩).last0 hp0'
    have hpapp := countIdState_append k ButtonState.Pressed
      (keys.foldl (process_key_event
        (EmulationPolicy.Manual Capability.KEY_RELEASE) d w)
        ⟨st.modifiers, st.last0, [], []⟩).out
      ((keys.foldl (process_key_event
        (EmulationPolicy.Manual Capability.KEY_RELEASE) d w)
        ⟨st.modifiers, st.last0, [], []⟩).last0.map reciprocal_event)
    have hrapp := countIdState_append k ButtonState.Released
      (keys.foldl (process_key_event
        (EmulationPolicy.Manual Capability.KEY_RELEASE) d w)
        ⟨st.modifiers, st.last0, [], []⟩).out
      ((keys.foldl (process_key_event
        (EmulationPolicy.Manual Capability.KEY_RELEASE) d w)
        ⟨st.modifiers, st.last0, [], []⟩).last0.map reciprocal_event)
    have hr := hrel k
    have hc := hcnt k
    dsimp only at hr hc
    have hz : releaseCount k ([] : List KeyboardInput) = 0 := rfl
    have hz' : pressCount k ([] : List KeyboardInput) = 0 := rfl
    have hz'' : heldCount k ([] : List KeyboardInput) = 0 := rfl
    have hp1 := hdrain.1
    have hp2 := hdrain.2
    simp only [pressCount, releaseCount] at hp1 hp2 hr hc hz hz' ⊢
    omega

/-- The session invariant: over any sequence of good press-only ticks
under policy `Manual(KEY_RELEASE)`, starting from a good state, the final
state is good and held-before plus presses equals releases plus
held-after, per key identity. -/
theorem runEmu_invariant (release_key : ReleaseKey) (d : Capability)
    (w : Nat) (ticks : List TickIn) :
    ∀ st : EmuState, (∀ t ∈ ticks, goodTick w t) → goodState st →
      goodState (runEmu release_key
          (EmulationPolicy.Manual Capability.KEY_RELEASE) d w st
          ticks).1 ∧
      ∀ k, heldCount k st.last0
            + pressCount k (runEmu release_key
                (EmulationPolicy.Manual Capability.KEY_RELEASE) d w st
                ticks).2.flatten
          = releaseCount k (runEmu release_key
                (EmulationPolicy.Manual Capability.KEY_RELEASE) d w st
                ticks).2.flatten
            + heldCount k (runEmu release_key
                (EmulationPolicy.Manual Capability.KEY_RELEASE) d w st
                ticks).1.last0 := by
  induction ticks with
  | nil =>
    intro st _ hst
    refine ⟨hst, ?_⟩
    intro k
    simp only [runEmu, List.flatten_nil]
    have h0 : pressCount k ([] : List KeyboardInput) = 0 := rfl
    have h1 : releaseCount k ([] : List KeyboardInput) = 0 := rfl
    omega
  | cons t ts ih =>
    intro st hgood hst
    obtain ⟨hst1, hcnt1⟩ := tick_invariant release_key d w t.delta t.keys
      st (hgood t (by simp)) hst
    obtain ⟨hst2, hcnt2⟩ := ih (send_key_events_with_emulation release_key
        (EmulationPolicy.Manual Capability.KEY_RELEASE) d w t.delta t.keys
        st).1 (fun t' ht' => hgood t' (by simp [ht'])) hst1
    refine ⟨?_, ?_⟩
    · simp only [runEmu]
      exact hst2
    · intro k
      simp only [runEmu, List.flatten_cons]
      have hp := countIdState_append k ButtonState.Pressed
        (send_key_events_with_emulation release_key
          (EmulationPolicy.Manual Capability.KEY_RELEASE) d w t.delta
          t.keys st).2
        (runEmu release_key (EmulationPolicy.Manual Capability.KEY_RELEASE)
          d w (send_key_events_with_emulation release_key
            (EmulationPolicy.Manual Capability.KEY_RELEASE) d w t.delta
            t.keys st).1 ts).2.flatten
      have hr := countIdState_append k ButtonState.Released
        (send_key_events_with_emulation release_key
          (EmulationPolicy.Manual Capability.KEY_RELEASE) d w t.delta
          t.keys st).2
        (runEmu release_key (EmulationPolicy.Manual Capability.KEY_RELEASE)
          d w (send_key_events_with_emulation release_key
            (EmulationPolicy.Manual Capability.KEY_RELEASE) d w t.delta
            t.keys st).1 ts).2.flatten
      have h1 := hcnt1 k
      have h2 := hcnt2 k
      rw [pressCount] at h1 h2 ⊢
      rw [releaseCount] at h1 h2 ⊢
      omega

/-- C2, counterexample: with KEY_RELEASE emulation active throughout
(`Manual(KEY_RELEASE)`, `OnNextKey`), pressing `a` and then receiving a
terminal auto-repeat for `a` yields one emitted press of `a` but two
emitted releases of `a` — not exactly one matching release. -/
theorem press_repeat_double_release :
    pressCount aId pressThenRepeatScenario.2.flatten = 1 ∧
    releaseCount aId pressThenRepeatScenario.2.flatten = 2 := by
  decide

/-- C2, amended: restricted to sessions whose raw events are all
press-kind with, per tick, pairwise distinct translations (terminal
auto-repeat events and intra-tick duplicates violate the property), with
KEY_RELEASE emulation active throughout: every key identity's emitted
presses exceed its emitted releases exactly by its presence (0 or 1) in
the final held buffer; in particular whenever the session ends with the
held buffer drained, every press has exactly one matching release. -/
theorem exactly_once_release (release_key : ReleaseKey) (d : Capability)
    (w : Nat) (ticks : List TickIn) (h : ∀ t ∈ ticks, goodTick w t) :
    (∀ k, pressCount k (runEmu release_key
            (EmulationPolicy.Manual Capability.KEY_RELEASE) d w
            initEmuState ticks).2.flatten
          = releaseCount k (runEmu release_key
              (EmulationPolicy.Manual Capability.KEY_RELEASE) d w
              initEmuState ticks).2.flatten
            + heldCount k (runEmu release_key
                (EmulationPolicy.Manual Capability.KEY_RELEASE) d w
                initEmuState ticks).1.last0
        ∧ heldCount k (runEmu release_key
            (EmulationPolicy.Manual Capability.KEY_RELEASE) d w
            initEmuState ticks).1.last0 ≤ 1) ∧
    ((runEmu release_key (EmulationPolicy.Manual Capability.KEY_RELEASE)
        d w initEmuState ticks).1.last0 = [] →
      ∀ k, pressCount k (runEmu release_key
            (EmulationPolicy.Manual Capability.KEY_RELEASE) d w
            initEmuState ticks).2.flatten
          = releaseCount k (runEmu release_key
              (EmulationPolicy.Manual Capability.KEY_RELEASE) d w
              initEmuState ticks).2.flatten) := by
  obtain ⟨⟨_, hnd, hp⟩, hcnt⟩ := runEmu_invariant release_key d w ticks
    initEmuState h ⟨rfl, List.nodup_nil, by simp [initEmuState]⟩
  constructor
  · intro k
    have hc := hcnt k
    have hle := heldCount_le_one k _ hnd hp
    have h0 : heldCount k initEmuState.last0 = 0 := rfl
    exact ⟨by omega, hle⟩
  · intro hempty k
    have hc := hcnt k
    rw [hempty] at hc
    have h0 : heldCount k initEmuState.last0 = 0 := rfl
    have h1 : heldCount k ([] : List KeyboardInput) = 0 := rfl
    omega

/-- Witness for `exactly_once_release`: press `a`, press `b`, then one
idle tick under the always-finished `Immediate` strategy, which drains the
buffer; press and release counts for `a` agree. -/
theorem exactly_once_release_witness :
    (∀ t ∈ ([⟨1, [pressACt]⟩, ⟨1, [pressBCt]⟩, ⟨1, []⟩] : List TickIn),
      goodTick 0 t) ∧
    pressCount aId (runEmu ReleaseKey.Immediate
        (EmulationPolicy.Manual Capability.KEY_RELEASE) Capability.NONE 0
        initEmuState
        [⟨1, [pressACt]⟩, ⟨1, [pressBCt]⟩, ⟨1, []⟩]).2.flatten
      = releaseCount aId (runEmu ReleaseKey.Immediate
          (EmulationPolicy.Manual Capability.KEY_RELEASE) Capability.NONE
          0 initEmuState
          [⟨1, [pressACt]⟩, ⟨1, [pressBCt]⟩, ⟨1, []⟩]).2.flatten :=
  ⟨by decide,
   (exactly_once_release ReleaseKey.Immediate Capability.NONE 0
      [⟨1, [pressACt]⟩, ⟨1, [pressBCt]⟩, ⟨1, []⟩] (by decide)).2
     (by decide) aId⟩

/-- Witness for `held_key_full_value_identity` at key `a`. -/
theorem held_key_full_value_identity_witness :
    (⟨BKeyCode.KeyA, BKey.Character "a", ButtonState.Pressed, 0⟩ :
        KeyboardInput)
      ≠ ⟨BKeyCode.KeyA, BKey.Character "a", ButtonState.Released, 0⟩ ∧
    hsTake ⟨BKeyCode.KeyA, BKey.Character "a", ButtonState.Released, 0⟩
        [⟨BKeyCode.KeyA, BKey.Character "a", ButtonState.Pressed, 0⟩]
      = (none,
         [⟨BKeyCode.KeyA, BKey.Character "a", ButtonState.Pressed, 0⟩]) :=
  held_key_full_value_identity BKeyCode.KeyA (BKey.Character "a") 0

end BevyRatatui
